import Mathlib

set_option maxRecDepth 40000

/-!
Verification development for `household_bot.py`.

Python strings are modelled as `List Char`, Python `None`-able values as
`Option`, the sqlite `approved_users` table as an association list keyed by
the integer user id, and the mail sessions as small inductive state types.
Machine behaviour that the claims do not touch (Telegram plumbing, Flask,
CSV mirroring, sqlite mechanics) is kept outside the model; every function
below is translated line by line from the named Python function.
-/

namespace HouseholdBot

abbrev Str := List Char

/-- Python whitespace class (`str.strip`, regex `\s`), ASCII part:
space, tab, LF, VT, FF, CR. -/
def pyWhitespace (c : Char) : Bool :=
  c = ' ' || c = Char.ofNat 9 || c = Char.ofNat 10 ||
  c = Char.ofNat 11 || c = Char.ofNat 12 || c = Char.ofNat 13

/-- The characters stripped from the right by `normalize_link`:
`u.rstrip(').,;\'"')` in the source (line 272). -/
def isPunct (c : Char) : Bool :=
  c = ')' || c = '.' || c = ',' || c = ';' || c = Char.ofNat 39 || c = Char.ofNat 34

/-- Character class of the `nftoken=` token in `NETFLIX_LINK_PATTERNS`
(lines 55-58): `[^\s"'<>]`. -/
def linkTokenChar (c : Char) : Bool :=
  !(pyWhitespace c || c = Char.ofNat 34 || c = Char.ofNat 39 || c = '<' || c = '>')

/-- `str.strip()`: drop whitespace from both ends. -/
def pyStrip (s : Str) : Str :=
  ((s.dropWhile pyWhitespace).reverse.dropWhile pyWhitespace).reverse

/-- Line 270-271: `if "<" in u: u = u.split("<",1)[0]` — keep the part
before the first `<` (a no-op when there is no `<`). -/
def truncLT (s : Str) : Str :=
  s.takeWhile (fun c => !(c = '<' : Bool))

/-- `u.rstrip(').,;\'"')`. -/
def pyRstripPunct (s : Str) : Str :=
  (s.reverse.dropWhile isPunct).reverse

/-- Lines 268-272: `normalize_link`. -/
def normalize_link (u : Str) : Str :=
  pyRstripPunct (truncLT (pyStrip u))

/-- Lowercase literal body of the first pattern in `NETFLIX_LINK_PATTERNS`
(line 56), up to the token character class. -/
def patUpdate : Str :=
  "https://www.netflix.com/account/update-primary-location?nftoken=".data

/-- Lowercase literal body of the second pattern (line 57). -/
def patVerify : Str :=
  "https://www.netflix.com/account/travel/verify?nftoken=".data

/-- Case-insensitive match of the literal pattern head `ps` (stored
lowercase) against the start of `s`; returns the consumed original-case
characters and the remainder, like `re.I` literal matching. -/
def matchCIHead : Str → Str → Option (Str × Str)
  | [], s => some ([], s)
  | _ :: _, [] => none
  | p :: ps, c :: cs =>
    if c.toLower = p then
      match matchCIHead ps cs with
      | none => none
      | some (con, rest) => some (c :: con, rest)
    else none

/-- `re.findall` for a pattern of the shape `literal[^\s"'<>]+` (the shape
of both `NETFLIX_LINK_PATTERNS`): leftmost, non-overlapping, greedy.
Structural recursion over a fuel argument; `s.length` fuel is enough since
every recursive call strictly shrinks the remaining input. -/
def findallAux (pat : Str) : Nat → Str → List Str
  | 0, _ => []
  | _ + 1, [] => []
  | fuel + 1, c :: cs =>
    match matchCIHead pat (c :: cs) with
    | none => findallAux pat fuel cs
    | some (con, rest) =>
      let tok := rest.takeWhile linkTokenChar
      if tok = [] then findallAux pat fuel cs
      else (con ++ tok) :: findallAux pat fuel (rest.drop tok.length)

def findallCI (pat : Str) (s : Str) : List Str :=
  findallAux pat s.length s

/-- Lines 276-277: `for pat in NETFLIX_LINK_PATTERNS: links.extend(pat.findall(text))`
— all matches of the first pattern, then all matches of the second. -/
def rawMatches (t : Str) : List Str :=
  findallCI patUpdate t ++ findallCI patVerify t

/-- Lines 278-284: the dedup loop of `extract_links_from_text`, with the
`seen` set as a list and `clean_links` as the accumulator. -/
def dedupLoop : List Str → List Str → List Str → List Str
  | [], _, clean => clean
  | u :: rest, seen, clean =>
    let nu := normalize_link u
    if nu ≠ [] ∧ ¬ nu ∈ seen then dedupLoop rest (nu :: seen) (clean ++ [nu])
    else dedupLoop rest seen clean

/-- Lines 274-285: `extract_links_from_text`. -/
def extract_links_from_text (t : Str) : List Str :=
  dedupLoop (rawMatches t) [] []

/-- Specification-side first-occurrence dedup: keep each element the first
time it appears, skipping anything already in `seen`. -/
def keepNew {α : Type} [DecidableEq α] : List α → List α → List α
  | [], _ => []
  | x :: xs, seen => if x ∈ seen then keepNew xs seen else x :: keepNew xs (x :: seen)

/-- The normalized, non-empty match sequence in pattern-major order:
exactly the list the dedup loop of `extract_links_from_text` consumes. -/
def normalizedMatches (t : Str) : List Str :=
  ((rawMatches t).map normalize_link).filter (fun nu => decide (¬ nu = []))

/-! Lemmas about the link extractor. -/

theorem badFixed (c : Char) (h : linkTokenChar c = false) : c.toLower = c := by
  have hmem : c ∈ ([' ', Char.ofNat 9, Char.ofNat 10, Char.ofNat 11, Char.ofNat 12,
      Char.ofNat 13, Char.ofNat 34, Char.ofNat 39, '<', '>'] : List Char) := by
    simp only [linkTokenChar, pyWhitespace, Bool.not_eq_false', Bool.or_eq_true,
      decide_eq_true_eq] at h
    simp only [List.mem_cons, List.not_mem_nil, or_false]
    tauto
  fin_cases hmem <;> decide

theorem matchCIHead_good :
    ∀ (ps s con rest : Str), ps.all linkTokenChar = true →
      matchCIHead ps s = some (con, rest) → con.all linkTokenChar = true := by
  intro ps
  induction ps with
  | nil =>
    intro s con rest _ h
    simp only [matchCIHead, Option.some.injEq, Prod.mk.injEq] at h
    simp [← h.1]
  | cons p ps ih =>
    intro s con rest hall h
    cases s with
    | nil => simp [matchCIHead] at h
    | cons c cs =>
      simp only [matchCIHead] at h
      by_cases hc : c.toLower = p
      · rw [if_pos hc] at h
        cases hm : matchCIHead ps cs with
        | none => rw [hm] at h; exact absurd h (by simp)
        | some pr =>
          rw [hm] at h
          obtain ⟨con1, rest1⟩ := pr
          simp only [Option.some.injEq, Prod.mk.injEq] at h
          obtain ⟨hcon, -⟩ := h
          simp only [List.all_cons, Bool.and_eq_true] at hall
          have hcgood : linkTokenChar c = true := by
            by_cases hg : linkTokenChar c = true
            · exact hg
            · exfalso
              have hfix := badFixed c (by simpa using hg)
              rw [hfix] at hc
              subst hc
              simp [hall.1] at hg
          subst hcon
          simp only [List.all_cons, Bool.and_eq_true]
          exact ⟨hcgood, ih cs con1 rest1 hall.2 hm⟩
      · rw [if_neg hc] at h; exact absurd h (by simp)

theorem takeWhile_all_self (p : Char → Bool) (l : Str) :
    (l.takeWhile p).all p = true := by
  induction l with
  | nil => rfl
  | cons c cs ih =>
    by_cases h : p c = true
    · simp [List.takeWhile_cons, h, ih]
    · simp [List.takeWhile_cons, Bool.eq_false_iff.mpr h]

theorem findallAux_good (pat : Str) (hpat : pat.all linkTokenChar = true) :
    ∀ (fuel : Nat) (s m : Str), m ∈ findallAux pat fuel s →
      m.all linkTokenChar = true ∧ m ≠ [] := by
  intro fuel
  induction fuel with
  | zero => intro s m h; simp [findallAux] at h
  | succ fuel ih =>
    intro s m h
    cases s with
    | nil => simp [findallAux] at h
    | cons c cs =>
      simp only [findallAux] at h
      cases hm : matchCIHead pat (c :: cs) with
      | none => rw [hm] at h; exact ih cs m h
      | some pr =>
        rw [hm] at h
        obtain ⟨con, rest⟩ := pr
        simp only at h
        by_cases htok : rest.takeWhile linkTokenChar = []
        · rw [if_pos htok] at h; exact ih cs m h
        · rw [if_neg htok] at h
          rcases List.mem_cons.mp h with h1 | h1
          · subst h1
            constructor
            · rw [List.all_append, matchCIHead_good pat (c :: cs) con rest hpat hm,
                takeWhile_all_self linkTokenChar rest]
              rfl
            · intro habs
              rcases List.append_eq_nil.mp habs with ⟨-, h2⟩
              exact htok h2
          · exact ih _ m h1

theorem rawMatches_good (t m : Str) (h : m ∈ rawMatches t) :
    m.all linkTokenChar = true ∧ m ≠ [] := by
  have h1 : patUpdate.all linkTokenChar = true := by decide
  have h2 : patVerify.all linkTokenChar = true := by decide
  rcases List.mem_append.mp h with h3 | h3
  · exact findallAux_good patUpdate h1 _ t m h3
  · exact findallAux_good patVerify h2 _ t m h3

theorem dropWhile_eq_self_of (p : Char → Bool) (l : Str)
    (h : ∀ c ∈ l, p c = false) : l.dropWhile p = l := by
  cases l with
  | nil => rfl
  | cons c cs => simp [List.dropWhile_cons, h c (List.mem_cons_self c cs)]

theorem takeWhile_eq_self_of (p : Char → Bool) (l : Str)
    (h : ∀ c ∈ l, p c = true) : l.takeWhile p = l := by
  induction l with
  | nil => rfl
  | cons c cs ih =>
    simp only [List.takeWhile_cons, h c (List.mem_cons_self c cs), if_true]
    rw [ih (fun x hx => h x (List.mem_cons_of_mem c hx))]

theorem dropWhile_dropWhile (p : Char → Bool) (l : Str) :
    (l.dropWhile p).dropWhile p = l.dropWhile p := by
  induction l with
  | nil => rfl
  | cons c cs ih =>
    by_cases h : p c = true
    · simp [List.dropWhile_cons, h, ih]
    · simp [List.dropWhile_cons, Bool.eq_false_iff.mpr h]

theorem mem_pyRstripPunct (s : Str) (x : Char) (h : x ∈ pyRstripPunct s) : x ∈ s := by
  simp only [pyRstripPunct, List.mem_reverse] at h
  have := (List.dropWhile_sublist (l := s.reverse) (p := isPunct)).subset h
  simpa using this

theorem good_pyStrip (s : Str) (h : s.all linkTokenChar = true) : pyStrip s = s := by
  have hws : ∀ c ∈ s, pyWhitespace c = false := by
    intro c hc
    have := List.all_eq_true.mp h c hc
    simp only [linkTokenChar, Bool.not_eq_true', Bool.or_eq_false_iff] at this
    exact this.1.1.1.1
  rw [pyStrip, dropWhile_eq_self_of _ _ hws,
      dropWhile_eq_self_of _ _ (fun c hc => hws c (List.mem_reverse.mp hc)),
      List.reverse_reverse]

theorem good_truncLT (s : Str) (h : s.all linkTokenChar = true) : truncLT s = s := by
  apply takeWhile_eq_self_of
  intro c hc
  have := List.all_eq_true.mp h c hc
  simp only [linkTokenChar, Bool.not_eq_true', Bool.or_eq_false_iff,
    decide_eq_false_iff_not] at this
  simp only [Bool.not_eq_true', decide_eq_false_iff_not]
  intro habs
  subst habs
  exact absurd rfl this.1.2

theorem pyRstripPunct_idem (s : Str) : pyRstripPunct (pyRstripPunct s) = pyRstripPunct s := by
  simp [pyRstripPunct, List.reverse_reverse, dropWhile_dropWhile]

theorem good_normalize (s : Str) (h : s.all linkTokenChar = true) :
    normalize_link s = pyRstripPunct s := by
  rw [normalize_link, good_pyStrip s h, good_truncLT s h]

theorem good_pyRstripPunct_all (s : Str) (h : s.all linkTokenChar = true) :
    (pyRstripPunct s).all linkTokenChar = true := by
  rw [List.all_eq_true]
  intro c hc
  exact List.all_eq_true.mp h c (mem_pyRstripPunct s c hc)

theorem normalize_fixed_of_good (s : Str) (h : s.all linkTokenChar = true) :
    normalize_link (pyRstripPunct s) = pyRstripPunct s := by
  rw [good_normalize _ (good_pyRstripPunct_all s h), pyRstripPunct_idem]

/-! The dedup loop versus the specification-side first-occurrence dedup. -/

theorem dedupLoop_eq :
    ∀ (links seen clean : List Str),
      dedupLoop links seen clean
        = clean ++ keepNew ((links.map normalize_link).filter (fun nu => decide (¬ nu = []))) seen := by
  intro links
  induction links with
  | nil => intro seen clean; simp [dedupLoop, keepNew]
  | cons u rest ih =>
    intro seen clean
    simp only [dedupLoop, List.map_cons, List.filter_cons]
    by_cases h1 : normalize_link u = []
    · have hc : ¬ (normalize_link u ≠ [] ∧ ¬ normalize_link u ∈ seen) := by
        intro hand; exact hand.1 h1
      rw [if_neg hc, if_neg (by simp [h1]), ih]
    · by_cases h2 : normalize_link u ∈ seen
      · have hc : ¬ (normalize_link u ≠ [] ∧ ¬ normalize_link u ∈ seen) := by
          intro hand; exact hand.2 h2
        rw [if_neg hc, if_pos (by simp [h1]), ih]
        simp only [keepNew, if_pos h2]
      · rw [if_pos ⟨h1, h2⟩, if_pos (by simp [h1]), ih]
        simp only [keepNew, if_neg h2, List.append_assoc, List.singleton_append]

theorem extract_eq (t : Str) :
    extract_links_from_text t = keepNew (normalizedMatches t) [] := by
  rw [extract_links_from_text, dedupLoop_eq, normalizedMatches, List.nil_append]

theorem mem_keepNew {α : Type} [DecidableEq α] :
    ∀ (l seen : List α) (a : α), a ∈ keepNew l seen ↔ (a ∈ l ∧ ¬ a ∈ seen) := by
  intro l
  induction l with
  | nil => intro seen a; simp [keepNew]
  | cons x xs ih =>
    intro seen a
    by_cases hx : x ∈ seen
    · simp only [keepNew, if_pos hx]; rw [ih]
      constructor
      · rintro ⟨h1, h2⟩; exact ⟨List.mem_cons_of_mem x h1, h2⟩
      · rintro ⟨h1, h2⟩
        rcases List.mem_cons.mp h1 with h3 | h3
        · subst h3; exact absurd hx h2
        · exact ⟨h3, h2⟩
    · simp only [keepNew, if_neg hx]
      constructor
      · intro h1
        rcases List.mem_cons.mp h1 with h3 | h3
        · rw [h3]; exact ⟨List.mem_cons_self x xs, hx⟩
        · have := (ih (x :: seen) a).mp h3
          exact ⟨List.mem_cons_of_mem x this.1, fun hs => this.2 (List.mem_cons_of_mem x hs)⟩
      · rintro ⟨h1, h2⟩
        rcases List.mem_cons.mp h1 with h3 | h3
        · subst h3; exact List.mem_cons_self a _
        · by_cases hax : a = x
          · subst hax; exact List.mem_cons_self a _
          · exact List.mem_cons_of_mem x
              ((ih (x :: seen) a).mpr ⟨h3, by simp [hax, h2]⟩)

theorem keepNew_sublist {α : Type} [DecidableEq α] :
    ∀ (l seen : List α), List.Sublist (keepNew l seen) l := by
  intro l
  induction l with
  | nil => intro seen; simp [keepNew]
  | cons x xs ih =>
    intro seen
    by_cases hx : x ∈ seen
    · simp only [keepNew, if_pos hx]
      exact List.Sublist.cons x (ih seen)
    · simp only [keepNew, if_neg hx]
      exact List.Sublist.cons₂ x (ih (x :: seen))

theorem keepNew_nodup {α : Type} [DecidableEq α] :
    ∀ (l seen : List α), (∀ x ∈ keepNew l seen, ¬ x ∈ seen) ∧ (keepNew l seen).Nodup := by
  intro l
  induction l with
  | nil => intro seen; simp [keepNew]
  | cons x xs ih =>
    intro seen
    by_cases hx : x ∈ seen
    · simp only [keepNew, if_pos hx]; exact ih seen
    · simp only [keepNew, if_neg hx]
      refine ⟨?_, ?_⟩
      · intro y hy
        rcases List.mem_cons.mp hy with h3 | h3
        · subst h3; exact hx
        · intro hs
          exact (ih (x :: seen)).1 y h3 (List.mem_cons_of_mem x hs)
      · rw [List.nodup_cons]
        refine ⟨?_, (ih (x :: seen)).2⟩
        intro habs
        exact (ih (x :: seen)).1 x habs (List.mem_cons_self x seen)

/-! ## Approval registry (lines 209-265)

The sqlite table `approved_users(user_id INTEGER PRIMARY KEY, expiry_date TEXT)`
is modelled as an association list with unique integer keys; a `TEXT NULL`
expiry is `Option Str`. `ADMIN_ID` and the current UTC date are parameters. -/

/-- A calendar date as Python's `datetime.date` triple. -/
structure CivilDate where
  year : Nat
  month : Nat
  day : Nat
deriving DecidableEq

/-- Python `date` comparison `a <= b` (lexicographic on (year, month, day)). -/
def dateLe (a b : CivilDate) : Bool :=
  decide (a.year < b.year ∨ (a.year = b.year ∧
    (a.month < b.month ∨ (a.month = b.month ∧ a.day ≤ b.day))))

/-- Python `date` comparison `a < b`. -/
def dateLt (a b : CivilDate) : Bool :=
  decide (a.year < b.year ∨ (a.year = b.year ∧
    (a.month < b.month ∨ (a.month = b.month ∧ a.day < b.day))))

def isLeapYear (y : Nat) : Bool :=
  y % 4 = 0 && (!(y % 100 = 0) || y % 400 = 0)

def daysInMonth (y m : Nat) : Nat :=
  if m = 2 then (if isLeapYear y then 29 else 28)
  else if m = 4 ∨ m = 6 ∨ m = 9 ∨ m = 11 then 30
  else 31

/-- Split a string at every occurrence of `sep` (Python `s.split(sep)`). -/
def splitChar (sep : Char) : Str → List Str
  | [] => [[]]
  | c :: cs =>
    match splitChar sep cs with
    | [] => if c = sep then [[], []] else [[c]]
    | h :: t => if c = sep then [] :: h :: t else (c :: h) :: t

def natOfDigits (l : Str) : Nat :=
  l.foldl (fun a c => a * 10 + (c.toNat - 48)) 0

/-- `datetime.strptime(expiry, "%Y-%m-%d").date()` as a total function:
`%Y` is exactly four digits, `%m` and `%d` are one or two digits within
range, the whole string must be consumed, and the day must exist in the
month (CPython validates against the calendar, year 0 is rejected). -/
def parseIsoDate (s : Str) : Option CivilDate :=
  match splitChar '-' s with
  | [ys, ms, ds] =>
    if ys.length = 4 ∧ ys.all Char.isDigit
        ∧ (ms.length = 1 ∨ ms.length = 2) ∧ ms.all Char.isDigit
        ∧ (ds.length = 1 ∨ ds.length = 2) ∧ ds.all Char.isDigit then
      let y := natOfDigits ys
      let m := natOfDigits ms
      let d := natOfDigits ds
      if 1 ≤ y ∧ 1 ≤ m ∧ m ≤ 12 ∧ 1 ≤ d ∧ d ≤ daysInMonth y m then
        some ⟨y, m, d⟩
      else none
    else none
  | _ => none

/-- The `approved_users` table. -/
abbrev Registry := List (Int × Option Str)

/-- `SELECT expiry_date FROM approved_users WHERE user_id=?` — the raw row:
`none` when absent, `some e` when present with (possibly NULL) expiry. -/
def lookupRaw (reg : Registry) (uid : Int) : Option (Option Str) :=
  (reg.find? (fun p => decide (p.1 = uid))).map Prod.snd

/-- Lines 229-237: `get_approved_db` — collapses "no row" and
"row with NULL expiry" into `None`, exactly as the Python returns. -/
def get_approved_db (reg : Registry) (uid : Int) : Option Str :=
  (lookupRaw reg uid).join

/-- Lines 221-227: `delete_approved_db` (`DELETE ... WHERE user_id=?`). -/
def delete_approved_db (uid : Int) (reg : Registry) : Registry :=
  reg.filter (fun p => decide (¬ p.1 = uid))

/-- Lines 210-219: `upsert_approved_db` (`INSERT ... ON CONFLICT(user_id)
DO UPDATE SET expiry_date=excluded.expiry_date`). -/
def upsert_approved_db (uid : Int) (expiry : Option Str) (reg : Registry) : Registry :=
  if reg.any (fun p => decide (p.1 = uid)) then
    reg.map (fun p => if p.1 = uid then (uid, expiry) else p)
  else reg ++ [(uid, expiry)]

/-- Lines 239-245: `list_approved_db` (`SELECT ... ORDER BY user_id`). -/
def list_approved_db (reg : Registry) : Registry :=
  List.insertionSort (fun a b => a.1 ≤ b.1) reg

/-- Lines 251-265: `is_approved`. `adminId` is the `ADMIN_ID` environment
value, `today` is `datetime.utcnow().date()`. Returns the boolean result
and the registry after the call (the expired branch self-prunes). -/
def is_approved (adminId : Int) (today : CivilDate) (reg : Registry) (uid : Int) :
    Bool × Registry :=
  if uid = adminId then (true, reg)
  else
    match get_approved_db reg uid with
    | none => (false, reg)
    | some s =>
      if s = [] then (false, reg)
      else
        match parseIsoDate s with
        | none => (false, reg)
        | some expDate =>
          if dateLe today expDate then (true, reg)
          else (false, delete_approved_db uid reg)

/-! ## The /approve command (lines 455-469) -/

/-- Successor date (one `timedelta(days=1)` step). -/
def nextDay (dt : CivilDate) : CivilDate :=
  if dt.day < daysInMonth dt.year dt.month then ⟨dt.year, dt.month, dt.day + 1⟩
  else if dt.month < 12 then ⟨dt.year, dt.month + 1, 1⟩
  else ⟨dt.year + 1, 1, 1⟩

/-- Predecessor date. -/
def prevDay (dt : CivilDate) : CivilDate :=
  if 1 < dt.day then ⟨dt.year, dt.month, dt.day - 1⟩
  else if 1 < dt.month then ⟨dt.year, dt.month - 1, daysInMonth dt.year (dt.month - 1)⟩
  else ⟨dt.year - 1, 12, 31⟩

def addDays (dt : CivilDate) : Nat → CivilDate
  | 0 => dt
  | n + 1 => addDays (nextDay dt) n

def subDays (dt : CivilDate) : Nat → CivilDate
  | 0 => dt
  | n + 1 => subDays (prevDay dt) n

/-- `today + timedelta(days=n)` for a Python int `n`. -/
def addDaysInt (dt : CivilDate) (n : Int) : CivilDate :=
  if 0 ≤ n then addDays dt n.toNat else subDays dt (-n).toNat

def digitChar (n : Nat) : Char := Char.ofNat (48 + n)

/-- `date.isoformat()`: zero-padded `yyyy-mm-dd` (years are at most 9999
in Python's `date`). -/
def isoFormat (dt : CivilDate) : Str :=
  [digitChar (dt.year / 1000 % 10), digitChar (dt.year / 100 % 10),
   digitChar (dt.year / 10 % 10), digitChar (dt.year % 10), '-',
   digitChar (dt.month / 10 % 10), digitChar (dt.month % 10), '-',
   digitChar (dt.day / 10 % 10), digitChar (dt.day % 10)]

/-- Lines 459-466 of `cmd_approve`: the registry effect of
`/approve <telegram_id> [days]`. `daysArg = none` models an omitted `[days]`
argument (`days = int(parts[2]) if len(parts) >= 3 else 30`); message
splitting, the admin gate and the reply are chat-transport plumbing. -/
def cmd_approve (today : CivilDate) (uid : Int) (daysArg : Option Int) (reg : Registry) :
    Registry :=
  let days : Int := daysArg.getD 30
  let expiry := isoFormat (addDaysInt today days)
  upsert_approved_db uid (some expiry) reg

/-! Registry lemmas. -/

theorem dateLt_not_le (a b : CivilDate) (h : dateLt a b = true) : dateLe b a = false := by
  simp only [dateLt, decide_eq_true_eq] at h
  simp only [dateLe, decide_eq_false_iff_not]
  omega

theorem lookupRaw_upsert (uid : Int) (v : Option Str) :
    ∀ reg : Registry, lookupRaw (upsert_approved_db uid v reg) uid = some v := by
  have hmap : ∀ reg : Registry, reg.any (fun p => decide (p.1 = uid)) = true →
      (reg.map (fun p => if p.1 = uid then (uid, v) else p)).find?
        (fun p => decide (p.1 = uid)) = some (uid, v) := by
    intro reg
    induction reg with
    | nil => intro h; simp at h
    | cons q qs ih =>
      intro h
      by_cases hq : q.1 = uid
      · simp [List.find?_cons, hq]
      · simp only [List.any_cons, Bool.or_eq_true, decide_eq_true_eq] at h
        rcases h with h | h
        · exact absurd h hq
        · simp only [List.map_cons, if_neg hq, List.find?_cons, decide_eq_false hq]
          exact ih h
  have happ : ∀ reg : Registry, reg.any (fun p => decide (p.1 = uid)) = false →
      (reg ++ [(uid, v)]).find? (fun p => decide (p.1 = uid)) = some (uid, v) := by
    intro reg
    induction reg with
    | nil => intro _; simp [List.find?_cons]
    | cons q qs ih =>
      intro h
      simp only [List.any_cons, Bool.or_eq_false_iff, decide_eq_false_iff_not] at h
      simp only [List.cons_append, List.find?_cons, decide_eq_false h.1]
      exact ih h.2
  intro reg
  rw [upsert_approved_db]
  by_cases h : reg.any (fun p => decide (p.1 = uid)) = true
  · rw [if_pos h, lookupRaw, hmap reg h]; rfl
  · rw [if_neg h, lookupRaw, happ reg (Bool.eq_false_iff.mpr h)]; rfl

theorem mem_list_approved_db (reg : Registry) (p : Int × Option Str) :
    p ∈ list_approved_db reg ↔ p ∈ reg :=
  (List.perm_insertionSort (fun a b => a.1 ≤ b.1) reg).mem_iff

theorem not_mem_delete (reg : Registry) (uid : Int) :
    ¬ uid ∈ (list_approved_db (delete_approved_db uid reg)).map Prod.fst := by
  intro h
  rcases List.mem_map.mp h with ⟨p, hp, hfst⟩
  have hmem : p ∈ delete_approved_db uid reg := (mem_list_approved_db _ p).mp hp
  have := List.of_mem_filter hmem
  rw [hfst] at this
  simp at this

/-! ## Conversation state machine (lines 385-386 and 500-560)

`user_state` holds `"awaiting_yes"` or `"awaiting_email"`; an absent key is
the idle state, modelled as `none`. `text_router` is modelled per requester:
its collaborators `get_account_db` (membership of the submitted address in
the accounts table) and `fetch_household_info` (the network call outcome)
enter as explicit parameters. -/

inductive ConvState
  | awaiting_yes
  | awaiting_email
deriving DecidableEq

/-- The distinct outgoing messages of `text_router` (lines 500-560). -/
inductive Reply
  | notApproved
  | enterMail
  | okayRestart
  | invalidEmail
  | notInDb
  | mailboxError
  | noResults
  | results (links : List (List Str))
  | greet
  | exited
  | silent
deriving DecidableEq

def toLowerStr (s : Str) : Str := s.map Char.toLower

/-- Split at the first occurrence of `sep`, if any. -/
def splitFirst (sep : Char) : Str → Option (Str × Str)
  | [] => none
  | c :: cs =>
    if c = sep then some ([], cs)
    else (splitFirst sep cs).map (fun pr => (c :: pr.1, pr.2))

/-- Line 520: `re.match(r"^[^@\s]+@[^@\s]+\.[^@\s]+$", email_addr)`.
Equivalent characterisation of the anchored regex: a first `@` splitting
the string into a non-empty local part without whitespace and a domain
part without `@` or whitespace that has a `.` neither first nor last. -/
def emailLike (s : Str) : Bool :=
  match splitFirst '@' s with
  | none => false
  | some (a, b) =>
    decide (¬ a = []) && a.all (fun c => !(pyWhitespace c)) &&
    b.all (fun c => !(pyWhitespace c) && !(c = '@' : Bool)) &&
    (b.drop 1).dropLast.contains '.'

/-- Lines 500-560: `text_router`, for one requester `uid`.
`accts` is the set of account mail addresses (`get_account_db` succeeds
iff the address is in it); `fetchRes` is the outcome of
`fetch_household_info` for that account (`Except.error` models the
re-raised connection-level exception). Returns the registry after the
`is_approved` call, the requester's new conversation state, and the reply. -/
def text_router (adminId uid : Int) (today : CivilDate) (reg : Registry)
    (accts : List Str) (fetchRes : Except Unit (List (List Str)))
    (st : Option ConvState) (rawTxt : Str) :
    Registry × Option ConvState × Reply :=
  let txt := pyStrip rawTxt
  let ap := is_approved adminId today reg uid
  if ap.1 = false then (ap.2, st, Reply.notApproved)
  else if st = some ConvState.awaiting_yes then
    (if toLowerStr txt = "yes".data then (ap.2, some ConvState.awaiting_email, Reply.enterMail)
     else (ap.2, none, Reply.okayRestart))
  else if st = some ConvState.awaiting_email then
    (if emailLike txt = false then (ap.2, st, Reply.invalidEmail)
     else if txt ∈ accts then
       (match fetchRes with
        | Except.error _ => (ap.2, none, Reply.mailboxError)
        | Except.ok [] => (ap.2, none, Reply.noResults)
        | Except.ok rs => (ap.2, none, Reply.results rs))
     else (ap.2, none, Reply.notInDb))
  else if toLowerStr txt = "yes".data ∨ toLowerStr txt = "start".data then
    (ap.2, some ConvState.awaiting_yes, Reply.greet)
  else if toLowerStr txt = "exit".data ∨ toLowerStr txt = "cancel".data then
    (ap.2, none, Reply.exited)
  else (ap.2, st, Reply.silent)

/-! Router lemmas. -/

theorem is_approved_true (adminId : Int) (today : CivilDate) (reg : Registry) (uid : Int)
    (h : (is_approved adminId today reg uid).1 = true) :
    is_approved adminId today reg uid = (true, reg) := by
  rw [is_approved] at h ⊢
  by_cases h1 : uid = adminId
  · rw [if_pos h1]
  · rw [if_neg h1] at h ⊢
    cases hg : get_approved_db reg uid with
    | none => simp only [hg] at h; simp at h
    | some s =>
      simp only [hg] at h ⊢
      by_cases h2 : s = []
      · rw [if_pos h2] at h; simp at h
      · rw [if_neg h2] at h ⊢
        cases hp : parseIsoDate s with
        | none => simp only [hp] at h; simp at h
        | some d =>
          simp only [hp] at h ⊢
          by_cases h3 : dateLe today d = true
          · rw [if_pos h3]
          · rw [if_neg h3] at h; simp at h

theorem splitFirst_eq_none (sep : Char) :
    ∀ s : Str, (∀ c ∈ s, ¬ c = sep) → splitFirst sep s = none := by
  intro s
  induction s with
  | nil => intro _; rfl
  | cons c cs ih =>
    intro h
    rw [splitFirst, if_neg (h c (List.mem_cons_self c cs)),
        ih (fun x hx => h x (List.mem_cons_of_mem c hx))]
    rfl

theorem emailLike_false_of_no_at (s : Str) (h : ∀ c ∈ s, ¬ c = '@') :
    emailLike s = false := by
  rw [emailLike, splitFirst_eq_none '@' s h]

theorem no_at_of_toLower (s w : Str) (hw : toLowerStr s = w)
    (h : ∀ c ∈ w, ¬ c = '@') : ∀ c ∈ s, ¬ c = '@' := by
  intro c hc habs
  subst habs
  have : Char.toLower '@' ∈ w := hw ▸ List.mem_map_of_mem Char.toLower hc
  exact h _ this (by decide)

/-! ## Mailbox retrieval engine (lines 51-53 and 314-377)

A parsed message is the pair of its `From` address (as extracted by
`parseaddr(msg.get("From",""))[1]`) and its decoded body text
(`get_text_from_message`, which never raises). A `none` slot stands for a
message whose per-message block (`retr`/`fetch`, parse, decode, extract)
raised and was skipped by the inner `except: continue`. Connection-level
behaviour is a small state: the `POP3_SSL`/`IMAP4_SSL` constructor raising
(`connectFail`, no session opened), `user`/`pass_`/`login` raising after
the session is open (`authFail`), or an authenticated session (`ok`).
Each fetch function returns the Python return value (or the re-raised
connection error, line 339-340/375-376) together with a Bool recording
whether `conn.quit()` / `m.logout()` was executed. -/

abbrev Msg := Str × Str

/-- Lines 51-54: `OTT_SENDERS`. -/
def OTT_SENDERS : List Str :=
  ["info@account.netflix.com".data, "no-reply@account.netflix.com".data]

inductive PopConn
  | connectFail
  | authFail
  | ok (msgs : List (Option Msg))

/-- Line 324: `start = max(1, num_messages - MAX_EMAILS_CHECK + 1)`. -/
def pop3Start (n maxCheck : Nat) : Nat := max 1 (n + 1 - maxCheck)

/-- Line 325: `range(start, num_messages + 1)`. -/
def pop3Idxs (n maxCheck : Nat) : List Nat :=
  List.range' (pop3Start n maxCheck) (n + 1 - pop3Start n maxCheck)

/-- Lines 327-335: the body of the per-message loop once the message is
retrieved and parsed — the sender filter against `OTT_SENDERS` and the
append of a non-empty link list. -/
def popStep (out : List (List Str)) (om : Option Msg) : List (List Str) :=
  match om with
  | none => out
  | some (frm, text) =>
    if toLowerStr frm ∈ OTT_SENDERS.map toLowerStr then
      (let links := extract_links_from_text text
       if links = [] then out else out ++ [links])
    else out

/-- One loop iteration of lines 325-337: `conn.retr(i)` is `msgs.get? (i-1)`
(1-based sequence numbers). -/
def popRetrStep (msgs : List (Option Msg)) (out : List (List Str)) (i : Nat) :
    List (List Str) :=
  match msgs.get? (i - 1) with
  | none => out
  | some om => popStep out om

/-- Lines 314-341: `fetch_via_pop3`. -/
def fetch_via_pop3 (conn : PopConn) (maxCheck : Nat) :
    Except Unit (List (List Str)) × Bool :=
  match conn with
  | PopConn.connectFail => (Except.error (), false)
  | PopConn.authFail => (Except.error (), false)
  | PopConn.ok msgs =>
    if msgs.length = 0 then (Except.ok [], true)
    else (Except.ok ((pop3Idxs msgs.length maxCheck).foldl (popRetrStep msgs) []), true)

/-- The trailing window the POP3 loop visits: the last `min maxCheck n`
messages. -/
def pop3Window (msgs : List (Option Msg)) (maxCheck : Nat) : List (Option Msg) :=
  msgs.drop (msgs.length - min maxCheck msgs.length)

structure ImapBox where
  /-- One entry per `OTT_SENDERS` query (lines 350-357): `none` when that
  `m.search` raised or returned a non-OK status (both swallowed), otherwise
  the returned message ids. -/
  searchRes : List (Option (List Nat))
  /-- `m.fetch i` (lines 363-367): id absent or mapped to `none` models a
  fetch that failed or a message whose handling raised (skipped). -/
  store : List (Nat × Option Msg)

inductive ImapConn
  | connectFail
  | authFail
  | ok (box : ImapBox)

def lookupStore (store : List (Nat × Option Msg)) (i : Nat) :
    Option (Option Msg) :=
  (store.find? (fun p => decide (p.1 = i))).map Prod.snd

/-- Lines 349-357: the union (a Python set) of the per-sender search results. -/
def imapIds (box : ImapBox) : List Nat :=
  keepNew ((box.searchRes.filterMap id).flatten) []

/-- Line 361: `sorted(list(ids), key=int, reverse=True)[:MAX_EMAILS_CHECK]`. -/
def imapIdList (box : ImapBox) (maxCheck : Nat) : List Nat :=
  (List.insertionSort (fun a b : Nat => b ≤ a) (imapIds box)).take maxCheck

/-- Lines 362-373: the per-id loop body. -/
def imapStep (store : List (Nat × Option Msg)) (out : List (List Str)) (i : Nat) :
    List (List Str) :=
  match lookupStore store i with
  | none => out
  | some none => out
  | some (some m) =>
    (let links := extract_links_from_text m.2
     if links = [] then out else out ++ [links])

/-- Lines 343-377: `fetch_via_imap`. -/
def fetch_via_imap (conn : ImapConn) (maxCheck : Nat) :
    Except Unit (List (List Str)) × Bool :=
  match conn with
  | ImapConn.connectFail => (Except.error (), false)
  | ImapConn.authFail => (Except.error (), false)
  | ImapConn.ok box =>
    if imapIds box = [] then (Except.ok [], true)
    else (Except.ok ((imapIdList box maxCheck).foldl (imapStep box.store) []), true)

/-! Retrieval lemmas. -/

theorem range'_fold_eq_drop (l : List (Option Msg)) :
    ∀ (c s : Nat) (init : List (List Str)), 1 ≤ s → s - 1 + c = l.length →
      (List.range' s c).foldl (popRetrStep l) init = (l.drop (s - 1)).foldl popStep init := by
  intro c
  induction c with
  | zero =>
    intro s init h1 h2
    rw [List.drop_eq_nil_of_le (by omega)]
    rfl
  | succ c ih =>
    intro s init h1 h2
    have hlt : s - 1 < l.length := by omega
    have he : s - 1 + 1 = s := by omega
    rw [List.range'_succ, List.foldl_cons, List.drop_eq_getElem_cons hlt, List.foldl_cons, he]
    have hstep : popRetrStep l init s = popStep init (l[s - 1]) := by
      simp only [popRetrStep, List.get?_eq_get hlt, List.get_eq_getElem]
    rw [hstep]
    have h3 := ih (s + 1) (popStep init (l[s - 1])) (by omega) (by omega)
    simpa using h3

theorem pop3_ok_eq (msgs : List (Option Msg)) (maxCheck : Nat) :
    fetch_via_pop3 (PopConn.ok msgs) maxCheck
      = (Except.ok ((pop3Window msgs maxCheck).foldl popStep []), true) := by
  rw [fetch_via_pop3]
  by_cases h : msgs.length = 0
  · have : msgs = [] := List.length_eq_zero.mp h
    subst this
    simp [pop3Window]
  · simp only [if_neg h]
    rw [pop3Idxs, range'_fold_eq_drop msgs (msgs.length + 1 - pop3Start msgs.length maxCheck)
        (pop3Start msgs.length maxCheck) [] (by rw [pop3Start]; omega) (by rw [pop3Start]; omega),
      pop3Window]
    have he2 : pop3Start msgs.length maxCheck - 1 = msgs.length - min maxCheck msgs.length := by
      rw [pop3Start]; omega
    rw [he2]

theorem foldl_skip_mid {α β : Type} (f : β → α → β) (x : α)
    (hx : ∀ acc, f acc x = acc) :
    ∀ (a b : List α) (init : β),
      (a ++ x :: b).foldl f init = (a ++ b).foldl f init := by
  intro a
  induction a with
  | nil => intro b init; simp [List.foldl_cons, hx]
  | cons y ys ih => intro b init; simp only [List.cons_append, List.foldl_cons, ih]

theorem foldl_popStep_skip_none (a b : List (Option Msg)) (init : List (List Str)) :
    (a ++ none :: b).foldl popStep init = (a ++ b).foldl popStep init :=
  foldl_skip_mid popStep none (fun _ => rfl) a b init

theorem foldl_imapStep_skip (store : List (Nat × Option Msg)) (i : Nat)
    (hi : lookupStore store i = none ∨ lookupStore store i = some none)
    (a b : List Nat) (init : List (List Str)) :
    (a ++ i :: b).foldl (imapStep store) init = (a ++ b).foldl (imapStep store) init := by
  apply foldl_skip_mid
  intro acc
  rcases hi with h | h <;> simp only [imapStep, h]

theorem imap_ok_eq (box : ImapBox) (maxCheck : Nat) :
    fetch_via_imap (ImapConn.ok box) maxCheck
      = (Except.ok ((imapIdList box maxCheck).foldl (imapStep box.store) []), true) := by
  rw [fetch_via_imap]
  by_cases h : imapIds box = []
  · rw [if_pos h]
    rw [imapIdList, h]
    simp
  · rw [if_neg h]

theorem foldl_const_of_all {α β : Type} (f : β → α → β) :
    ∀ (l : List α) (init : β), (∀ x ∈ l, ∀ acc, f acc x = acc) →
      l.foldl f init = init := by
  intro l
  induction l with
  | nil => intro init _; rfl
  | cons x xs ih =>
    intro init h
    rw [List.foldl_cons, h x (List.mem_cons_self x xs) init]
    exact ih init (fun y hy => h y (List.mem_cons_of_mem x hy))

theorem mem_of_lookupRaw (reg : Registry) (uid : Int) (e : Option Str)
    (h : lookupRaw reg uid = some e) : (uid, e) ∈ reg := by
  rw [lookupRaw] at h
  rcases Option.map_eq_some'.mp h with ⟨p, hfind, hsnd⟩
  have h1 := List.find?_some hfind
  have h2 := List.mem_of_find?_eq_some hfind
  obtain ⟨pa, pb⟩ := p
  simp only [decide_eq_true_eq] at h1
  subst h1
  subst hsnd
  exact h2

/-! ## Claims -/

/-- Claim C1 counterexample: a present approval entry whose stored expiry is
NULL is rejected by `is_approved` on a concrete date (the claim asserts such
an entry is authorized on every date). -/
theorem is_approved_null_expiry_cex :
    is_approved 1 ⟨2026, 10, 12⟩ [((42 : Int), (none : Option Str))] 42
      = (false, [(42, none)]) := by decide

/-- Claim C1 (amended): for a non-admin requester whose approval row is
present with a NULL expiry, `is_approved` returns `false` on every date and
leaves the registry unchanged (the row still appears in the listing);
the code does not support permanent authorization via a missing expiry. -/
theorem is_approved_null_expiry (adminId : Int) (today : CivilDate)
    (reg : Registry) (uid : Int) (h1 : ¬ uid = adminId)
    (h2 : lookupRaw reg uid = some none) :
    is_approved adminId today reg uid = (false, reg)
      ∧ (uid, (none : Option Str)) ∈ list_approved_db reg := by
  constructor
  · have hg : get_approved_db reg uid = none := by rw [get_approved_db, h2]; rfl
    rw [is_approved, if_neg h1]
    simp only [hg]
  · exact (mem_list_approved_db reg _).mpr (mem_of_lookupRaw reg uid none h2)

theorem is_approved_null_expiry_w :
    is_approved 5 ⟨2030, 1, 1⟩ [((7 : Int), (none : Option Str))] 7 = (false, [(7, none)])
      ∧ ((7 : Int), (none : Option Str)) ∈ list_approved_db [((7 : Int), (none : Option Str))] :=
  is_approved_null_expiry 5 ⟨2030, 1, 1⟩ [((7 : Int), none)] 7 (by decide) (by decide)

/-- Claim C2 counterexample: an authorized requester in the
`awaiting_email` state who sends the explicit exit signal stays in
`awaiting_email` and gets the invalid-address reprompt — the state does not
return to idle (requester 7 is the admin, hence authorized). -/
theorem text_router_exit_awaiting_email_cex :
    text_router 7 7 ⟨2026, 1, 1⟩ [] [] (Except.ok [])
        (some ConvState.awaiting_email) "exit".data
      = ([], some ConvState.awaiting_email, Reply.invalidEmail) := by decide

/-- Claim C2 (amended): for an authorized requester, an explicit
`exit`/`cancel` input returns the state to idle with an acknowledgement
from the idle state and from `awaiting_yes`; from `awaiting_email` it is
instead treated as an invalid mailbox id: the reply is the validation
notice and the state stays `awaiting_email`. -/
theorem text_router_exit_cancel (adminId uid : Int) (today : CivilDate)
    (reg : Registry) (accts : List Str) (fetchRes : Except Unit (List (List Str)))
    (st : Option ConvState) (rawTxt : Str)
    (hap : (is_approved adminId today reg uid).1 = true)
    (htxt : toLowerStr (pyStrip rawTxt) = "exit".data
        ∨ toLowerStr (pyStrip rawTxt) = "cancel".data) :
    (st = none →
      text_router adminId uid today reg accts fetchRes st rawTxt
        = (reg, none, Reply.exited))
    ∧ (st = some ConvState.awaiting_yes →
      text_router adminId uid today reg accts fetchRes st rawTxt
        = (reg, none, Reply.okayRestart))
    ∧ (st = some ConvState.awaiting_email →
      text_router adminId uid today reg accts fetchRes st rawTxt
        = (reg, some ConvState.awaiting_email, Reply.invalidEmail)) := by
  have hap2 := is_approved_true adminId today reg uid hap
  have hyes : ¬ toLowerStr (pyStrip rawTxt) = "yes".data := by
    rcases htxt with h | h <;> rw [h] <;> decide
  have hstart : ¬ toLowerStr (pyStrip rawTxt) = "start".data := by
    rcases htxt with h | h <;> rw [h] <;> decide
  have hemail : emailLike (pyStrip rawTxt) = false := by
    apply emailLike_false_of_no_at
    rcases htxt with h | h <;> exact no_at_of_toLower _ _ h (by decide)
  refine ⟨?_, ?_, ?_⟩ <;> intro hst <;> subst hst <;>
    simp [text_router, hap2, hyes, hstart, hemail, htxt]

theorem text_router_exit_cancel_w :
    text_router 3 3 ⟨2026, 1, 1⟩ [] [] (Except.ok [])
        (some ConvState.awaiting_yes) " Cancel ".data
      = ([], none, Reply.okayRestart) :=
  (text_router_exit_cancel 3 3 ⟨2026, 1, 1⟩ [] [] (Except.ok [])
      (some ConvState.awaiting_yes) " Cancel ".data (by decide) (Or.inr (by decide))).2.1 rfl

/-- Claim C3 counterexample: `/approve 42` with the days argument omitted
stores a concrete expiry date 30 days ahead (2026-11-11 when today is
2026-10-12) — not a NULL (permanent) expiry. -/
theorem cmd_approve_default_cex :
    lookupRaw (cmd_approve ⟨2026, 10, 12⟩ 42 none []) 42
        = some (some "2026-11-11".data)
      ∧ ¬ lookupRaw (cmd_approve ⟨2026, 10, 12⟩ 42 none []) 42 = some none := by
  refine ⟨by decide, by decide⟩

/-- Claim C3 (amended): the grant operation with an omitted expiry argument
inserts or overwrites the requester's entry with a default 30-day expiry
(`today + timedelta(days=30)`, stored as an ISO date string), not as a
permanent entry. -/
theorem cmd_approve_default_expiry (today : CivilDate) (uid : Int) (reg : Registry) :
    lookupRaw (cmd_approve today uid none reg) uid
      = some (some (isoFormat (addDaysInt today 30))) := by
  rw [cmd_approve]
  exact lookupRaw_upsert uid _ reg

/-- Claim C4: for a non-admin requester whose stored expiry parses to a date
strictly before the current UTC date, `is_approved` returns `false`, removes
the row as a side effect of the check, and the requester no longer appears
in the subsequent `list_approved_db` listing. -/
theorem is_approved_expired_prunes (adminId : Int) (today : CivilDate)
    (reg : Registry) (uid : Int) (s : Str) (d : CivilDate)
    (h1 : ¬ uid = adminId) (h2 : get_approved_db reg uid = some s)
    (h3 : parseIsoDate s = some d) (h4 : dateLt d today = true) :
    is_approved adminId today reg uid = (false, delete_approved_db uid reg)
      ∧ ¬ uid ∈ (list_approved_db (delete_approved_db uid reg)).map Prod.fst := by
  constructor
  · rw [is_approved, if_neg h1]
    simp only [h2]
    have hs : ¬ s = [] := by
      intro habs
      rw [habs] at h3
      have hempty : (none : Option CivilDate) = some d := h3
      exact Option.noConfusion hempty
    rw [if_neg hs]
    simp only [h3, dateLt_not_le d today h4]
    simp
  · exact not_mem_delete reg uid

theorem is_approved_expired_prunes_w :
    is_approved 1 ⟨2026, 10, 12⟩ [((42 : Int), some "2020-01-01".data)] 42
      = (false, delete_approved_db 42 [((42 : Int), some "2020-01-01".data)])
      ∧ ¬ (42 : Int) ∈ (list_approved_db (delete_approved_db 42
            [((42 : Int), some "2020-01-01".data)])).map Prod.fst :=
  is_approved_expired_prunes 1 ⟨2026, 10, 12⟩ [((42 : Int), some "2020-01-01".data)] 42
    "2020-01-01".data ⟨2020, 1, 1⟩ (by decide) (by decide) (by decide) (by decide)

/-- Claim C5: in both retrieval paths a connection-level failure (connect or
authenticate) propagates as a single error for the whole retrieval, while an
authenticated session always produces an `ok` result in which every failed
message slot is simply skipped: deleting a failing slot (POP3) or a failing
id (IMAP) from the scan does not change the result. -/
theorem fetch_error_scoping (M : Nat) :
    ((fetch_via_pop3 PopConn.connectFail M).1 = Except.error ()
      ∧ (fetch_via_pop3 PopConn.authFail M).1 = Except.error ()
      ∧ (fetch_via_imap ImapConn.connectFail M).1 = Except.error ()
      ∧ (fetch_via_imap ImapConn.authFail M).1 = Except.error ())
    ∧ (∀ msgs : List (Option Msg),
        (fetch_via_pop3 (PopConn.ok msgs) M).1
          = Except.ok ((pop3Window msgs M).foldl popStep []))
    ∧ (∀ (a b : List (Option Msg)) (init : List (List Str)),
        (a ++ none :: b).foldl popStep init = (a ++ b).foldl popStep init)
    ∧ (∀ box : ImapBox,
        (fetch_via_imap (ImapConn.ok box) M).1
          = Except.ok ((imapIdList box M).foldl (imapStep box.store) []))
    ∧ (∀ (store : List (Nat × Option Msg)) (i : Nat),
        (lookupStore store i = none ∨ lookupStore store i = some none) →
        ∀ (a b : List Nat) (init : List (List Str)),
          (a ++ i :: b).foldl (imapStep store) init
            = (a ++ b).foldl (imapStep store) init) := by
  refine ⟨⟨rfl, rfl, rfl, rfl⟩, ?_, ?_, ?_, ?_⟩
  · intro msgs; rw [pop3_ok_eq]
  · exact foldl_popStep_skip_none
  · intro box; rw [imap_ok_eq]
  · intro store i hi a b init; exact foldl_imapStep_skip store i hi a b init

theorem fetch_error_scoping_w :
    (fetch_via_pop3 PopConn.authFail 20).1 = Except.error ()
      ∧ (([] ++ (5 : Nat) :: []).foldl (imapStep []) []
          = (([] : List Nat) ++ []).foldl (imapStep []) []) :=
  ⟨(fetch_error_scoping 20).1.2.1,
   (fetch_error_scoping 20).2.2.2.2 [] 5 (Or.inl rfl) [] [] []⟩

/-- Claim C6 counterexample: in a text where the travel/verify link occurs
before the update-primary-location link, the extractor still lists the
update-primary-location link first (all matches of the first pattern come
before all matches of the second), so the output is not ordered by first
position in the text. -/
theorem extract_links_order_cex :
    extract_links_from_text ("x ".data
        ++ "https://www.netflix.com/account/travel/verify?nftoken=AAA".data
        ++ " and ".data
        ++ "https://www.netflix.com/account/update-primary-location?nftoken=BBB".data)
      = ["https://www.netflix.com/account/update-primary-location?nftoken=BBB".data,
         "https://www.netflix.com/account/travel/verify?nftoken=AAA".data]
      ∧ ¬ "https://www.netflix.com/account/update-primary-location?nftoken=BBB".data
          = "https://www.netflix.com/account/travel/verify?nftoken=AAA".data := by
  refine ⟨by decide, by decide⟩

/-- Claim C6 (amended): the extractor's output is the duplicate-free
first-occurrence dedup of the normalized non-empty matches taken in
pattern-major order (all matches of the update-primary-location pattern in
text order, then all matches of the travel/verify pattern); it is `Nodup`,
a sublist of that match sequence (so relative order is first-seen order of
that scan), and contains exactly its distinct elements. -/
theorem extract_links_dedup_first_seen (t : Str) :
    extract_links_from_text t = keepNew (normalizedMatches t) []
      ∧ (extract_links_from_text t).Nodup
      ∧ List.Sublist (extract_links_from_text t) (normalizedMatches t)
      ∧ (∀ u : Str, u ∈ extract_links_from_text t ↔ u ∈ normalizedMatches t) := by
  have he := extract_eq t
  refine ⟨he, ?_, ?_, ?_⟩
  · rw [he]; exact (keepNew_nodup (normalizedMatches t) []).2
  · rw [he]; exact keepNew_sublist (normalizedMatches t) []
  · intro u; rw [he, mem_keepNew]; simp

/-- Claim C7 counterexample: when authentication raises after the POP3
session was opened, the error propagates and `conn.quit()` is never
executed (second component `false`); the claim asserts the session is
terminated on every path. -/
theorem fetch_pop3_auth_fail_no_quit_cex :
    fetch_via_pop3 PopConn.authFail 20 = (Except.error (), false) := rfl

/-- Claim C7 (amended): both retrieval paths terminate the mail session on
every path on which no connection-level error is raised (including the
empty-mailbox and empty-search early returns), but a connection-level
failure after the session is opened propagates without `quit`/`logout`
being executed. -/
theorem fetch_session_close (M : Nat) :
    (∀ msgs : List (Option Msg), (fetch_via_pop3 (PopConn.ok msgs) M).2 = true)
    ∧ (∀ box : ImapBox, (fetch_via_imap (ImapConn.ok box) M).2 = true)
    ∧ fetch_via_pop3 PopConn.authFail M = (Except.error (), false)
    ∧ fetch_via_imap ImapConn.authFail M = (Except.error (), false) := by
  refine ⟨?_, ?_, rfl, rfl⟩
  · intro msgs; rw [pop3_ok_eq]
  · intro box; rw [imap_ok_eq]

/-- Claim C8: the POP3 loop visits exactly the sequence numbers
`n - min(maxCheck, n) + 1 .. n` — the last `min(maxCheck, totalCount)`
messages — and both an empty mailbox and a mailbox with no sender matches
yield `ok []`, never an error. -/
theorem pop3_window_spec (msgs : List (Option Msg)) (M : Nat) :
    pop3Idxs msgs.length M
        = List.range' (msgs.length + 1 - min M msgs.length) (min M msgs.length)
      ∧ (pop3Idxs msgs.length M).length = min M msgs.length
      ∧ (msgs = [] → fetch_via_pop3 (PopConn.ok msgs) M = (Except.ok [], true))
      ∧ ((∀ frm text : Str, some (frm, text) ∈ msgs →
            ¬ toLowerStr frm ∈ OTT_SENDERS.map toLowerStr) →
          (fetch_via_pop3 (PopConn.ok msgs) M).1 = Except.ok []) := by
  have hs : pop3Start msgs.length M = msgs.length + 1 - min M msgs.length := by
    rw [pop3Start]; omega
  have hc : msgs.length + 1 - pop3Start msgs.length M = min M msgs.length := by
    rw [pop3Start]; omega
  refine ⟨?_, ?_, ?_, ?_⟩
  · rw [pop3Idxs, hc, hs]
  · rw [pop3Idxs, List.length_range']; exact hc
  · intro h; subst h; rfl
  · intro hsend
    rw [pop3_ok_eq]
    have hz : (pop3Window msgs M).foldl popStep [] = [] := by
      apply foldl_const_of_all
      intro om hom acc
      cases om with
      | none => rfl
      | some m =>
        obtain ⟨frm, text⟩ := m
        have hmem : some (frm, text) ∈ msgs := List.drop_subset _ msgs hom
        simp only [popStep]
        rw [if_neg (hsend frm text hmem)]
    rw [hz]

theorem pop3_window_spec_w :
    pop3Idxs 5 20 = [1, 2, 3, 4, 5]
      ∧ (fetch_via_pop3 (PopConn.ok [some ("alice@example.com".data, "hi".data)]) 20).1
          = Except.ok [] := by
  constructor
  · exact ((pop3_window_spec ([none, none, none, none, none] : List (Option Msg)) 20).1).trans
      (by decide)
  · apply (pop3_window_spec [some ("alice@example.com".data, "hi".data)] 20).2.2.2
    intro frm text hmem
    simp only [List.mem_singleton, Option.some.injEq, Prod.mk.injEq] at hmem
    rw [hmem.1]
    decide

/-- Claim C9: when the stored expiry string is present but not parseable as
an ISO `yyyy-mm-dd` date, `is_approved` returns `false` but does not delete
the row, so the malformed entry still appears in the subsequent listing. -/
theorem is_approved_malformed_no_prune (adminId : Int) (today : CivilDate)
    (reg : Registry) (uid : Int) (s : Str)
    (h1 : ¬ uid = adminId) (h2 : lookupRaw reg uid = some (some s))
    (h3 : parseIsoDate s = none) :
    is_approved adminId today reg uid = (false, reg)
      ∧ (uid, some s) ∈ list_approved_db reg := by
  constructor
  · have hg : get_approved_db reg uid = some s := by rw [get_approved_db, h2]; rfl
    rw [is_approved, if_neg h1]
    simp only [hg]
    by_cases hsgoal : s = []
    · rw [if_pos hsgoal]
    · rw [if_neg hsgoal]
      simp only [h3]
  · exact (mem_list_approved_db reg _).mpr (mem_of_lookupRaw reg uid (some s) h2)

theorem is_approved_malformed_no_prune_w :
    is_approved 1 ⟨2026, 1, 1⟩ [((42 : Int), some "banana".data)] 42
      = (false, [(42, some "banana".data)])
      ∧ ((42 : Int), some "banana".data)
          ∈ list_approved_db [((42 : Int), some "banana".data)] :=
  is_approved_malformed_no_prune 1 ⟨2026, 1, 1⟩ [((42 : Int), some "banana".data)] 42
    "banana".data (by decide) (by decide) (by decide)

/-- Claim C10: every link returned by the extractor is non-empty and is a
fixed point of `normalize_link`: the match character class excludes
whitespace, quotes and angle brackets, so after the one normalization pass
no further stripping, truncation at `<`, or trailing-punctuation removal
can change the value. -/
theorem extract_links_normalize_fixed (t u : Str)
    (h : u ∈ extract_links_from_text t) :
    ¬ u = [] ∧ normalize_link u = u := by
  rw [extract_eq t, mem_keepNew] at h
  have h1 : u ∈ normalizedMatches t := h.1
  rw [normalizedMatches, List.mem_filter] at h1
  obtain ⟨h2, h3⟩ := h1
  have hne : ¬ u = [] := by simpa using h3
  rcases List.mem_map.mp h2 with ⟨m, hm, hnorm⟩
  have hgood := rawMatches_good t m hm
  refine ⟨hne, ?_⟩
  rw [← hnorm, good_normalize m hgood.1]
  exact normalize_fixed_of_good m hgood.1

theorem extract_links_normalize_fixed_w :
    ¬ ("https://www.netflix.com/account/travel/verify?nftoken=XYZ".data : Str) = []
      ∧ normalize_link "https://www.netflix.com/account/travel/verify?nftoken=XYZ".data
          = "https://www.netflix.com/account/travel/verify?nftoken=XYZ".data :=
  extract_links_normalize_fixed
    "see https://www.netflix.com/account/travel/verify?nftoken=XYZ. ok".data
    "https://www.netflix.com/account/travel/verify?nftoken=XYZ".data (by decide)

end HouseholdBot
